import Mathlib

/-!
Shallow embedding of the `update-dependencies` scope aspect
(`src/scopes/scope/update-dependencies/update-dependencies.main.runtime.ts`).

The orchestrator `updateDependenciesVersions` and its private helpers are
translated function-by-function.  External collaborators (the scope store,
the semver helpers, the builder, the dependency-resolver service — all of
which live outside `src/`) are modelled from the spec and passed in through
an explicit `Env` record, so that the pipeline is a pure, executable
function of its inputs.
-/

/-- BuildStatus values used by the orchestrator (`bit-bin/dist/constants`):
`Pending` is stamped before the build, `Succeed`/`Failed` at commit time. -/
inductive BuildStatus where
  | pending
  | succeed
  | failed
deriving DecidableEq, Repr

/-- Legacy component identifier (`BitId`): scope name, component name and an
optional version string.  Dependency matching ignores the version. -/
structure BitId where
  scope : String
  name : String
  version : Option String
deriving DecidableEq, Repr

/-- Latest-version token (`LATEST` from `bit-bin/dist/constants`). -/
def LATEST : String := "latest"

def BitId.changeVersion (id : BitId) (v : Option String) : BitId :=
  { id with version := v }

/-- Identifier equality ignoring the version component
(`BitId.isEqualWithoutVersion`). -/
def BitId.isEqualWithoutVersion (a b : BitId) : Bool :=
  a.scope == b.scope && a.name == b.name

/-- Rendering of a `BitId` as `scope/name@version`. -/
def BitId.toString (id : BitId) : String :=
  id.scope ++ "/" ++ id.name ++
    (match id.version with
     | some v => "@" ++ v
     | none => "")

/-- Lookup of an id in a collection ignoring versions
(`BitIds.searchWithoutVersion`): returns the stored id (with its own
version) of the first entry matching the searched id. -/
def searchWithoutVersion (ids : List BitId) (target : BitId) : Option BitId :=
  ids.find? (fun i => i.isEqualWithoutVersion target)

/-- Semantic version triple.  Modelled from the spec: the spec treats
versions as semver `major.minor.patch` values ordered lexicographically. -/
structure SemVer where
  major : Nat
  minor : Nat
  patch : Nat
deriving DecidableEq, Repr

/-- Boolean lexicographic order on semantic versions. -/
def SemVer.leb (a b : SemVer) : Bool :=
  Nat.blt a.major b.major ||
    (Nat.beq a.major b.major &&
      (Nat.blt a.minor b.minor ||
        (Nat.beq a.minor b.minor && Nat.ble a.patch b.patch)))

def SemVer.toString (v : SemVer) : String :=
  Nat.repr v.major ++ "." ++ Nat.repr v.minor ++ "." ++ Nat.repr v.patch

/-- Digit-string parser used by the semver parser. -/
def digitsToNatAux (acc : Nat) : List Char → Option Nat
  | [] => some acc
  | c :: rest =>
    if c.isDigit then digitsToNatAux (acc * 10 + (c.toNat - 48)) rest
    else none

def digitsToNat : List Char → Option Nat
  | [] => none
  | l => digitsToNatAux 0 l

/-- Splitting of a character list on dots. -/
def splitDots : List Char → List (List Char)
  | [] => [[]]
  | c :: rest =>
    let r := splitDots rest
    if c = '.' then [] :: r
    else
      match r with
      | g :: gs => (c :: g) :: gs
      | [] => [[c]]

/-- Parser for `major.minor.patch` version strings (character-list form). -/
def parseSemVerChars (cs : List Char) : Option SemVer :=
  match splitDots cs with
  | [a, b, c] =>
    match digitsToNat a, digitsToNat b, digitsToNat c with
    | some x, some y, some z => some ⟨x, y, z⟩
    | _, _, _ => none
  | _ => none

def parseSemVer (s : String) : Option SemVer :=
  parseSemVerChars s.toList

/-- Modelled from the spec: semver range satisfaction, for the range grammar
the spec mentions (`*`, caret, tilde, exact version).  `scope.getExactVersionBySemverRange`
and the underlying semver library are outside `src/`. -/
def satisfiesRange (range : String) (v : SemVer) : Bool :=
  match range.toList with
  | ['*'] => true
  | '^' :: rest =>
    match parseSemVerChars rest with
    | some b => Nat.beq v.major b.major && b.leb v
    | none => false
  | '~' :: rest =>
    match parseSemVerChars rest with
    | some b => Nat.beq v.major b.major && Nat.beq v.minor b.minor && b.leb v
    | none => false
  | cs =>
    match parseSemVerChars cs with
    | some b => decide (v = b)
    | none => false

/-- Modelled from the spec: "scan the component's known version history and
return the highest version satisfying the range". -/
def maxSatisfying (range : String) : List SemVer → Option SemVer
  | [] => none
  | v :: rest =>
    let r := maxSatisfying range rest
    if satisfiesRange range v then
      match r with
      | none => some v
      | some m => if m.leb v then some v else some m
    else r

/-- Modelled from the spec: `scope.getExactVersionBySemverRange` (the scope
collaborator, outside `src/`) resolves a semver range against the
component's known version history to the highest satisfying version. -/
def getExactVersionBySemverRange (known : List SemVer) (range : String) : Option SemVer :=
  maxSatisfying range known

/-- Dependency edge of a component (`bit-bin` `Dependency`): target id plus
the externally visible package name. -/
structure Dependency where
  id : BitId
  packageName : Option String
deriving DecidableEq, Repr

/-- Value stored under one top-level key of an extension's `data` object. -/
inductive ExtFieldVal where
  | deps (d : List (String × String))
  | str (s : String)
deriving DecidableEq, Repr

/-- Extension record (`ExtensionDataEntry` from `bit-bin/dist/consumer/config`,
outside `src/`): an optional component id reference, an optional name, and a
dynamic `data` object modelled as an association list. -/
structure ExtensionDataEntry where
  extensionId : Option BitId
  name : Option String
  data : List (String × ExtFieldVal)
deriving DecidableEq, Repr

/-- Modelled from the spec: the string id of an extension entry, as used by
`ExtensionDataList.findExtension` — the referenced component id when
present, otherwise the entry's name ("each optionally referencing another
component by identifier"). -/
def ExtensionDataEntry.stringId (e : ExtensionDataEntry) : String :=
  match e.extensionId with
  | some i => i.toString
  | none =>
    match e.name with
    | some n => n
    | none => ""

/-- Provenance log entry attached by `addLogToComponents`. -/
structure LogEntry where
  username : String
  email : String
  message : String
  date : String
deriving DecidableEq, Repr

/-- In-memory component state threaded through the pipeline (the legacy
`ConsumerComponent`).  The harmony `Component` wrapper always carries this
as `component.state._consumer`; the embedding flattens the two. -/
structure ConsumerComponent where
  scope : String
  name : String
  version : Option String
  dependencies : List Dependency
  devDependencies : List Dependency
  flattenedDependencies : List BitId
  extensions : List ExtensionDataEntry
  buildStatus : Option BuildStatus
  log : Option LogEntry
deriving DecidableEq, Repr

/-- Modelled from the spec: the component id, derived from the current
scope/name/version fields (the `ConsumerComponent.id` getter in `bit-bin`,
outside `src/`; per the spec's batch invariant the id visible to the
rewrite step carries the version assigned by version planning). -/
def ConsumerComponent.id (c : ConsumerComponent) : BitId :=
  ⟨c.scope, c.name, c.version⟩

/-- Raw update request item (`DepUpdateItemRaw`); ids are already parsed
into structured form since `ComponentID.fromString` is pure parsing. -/
structure DepUpdateItemRaw where
  componentId : BitId
  dependencies : List BitId
  versionToTag : Option String
deriving DecidableEq, Repr

/-- Parsed update item (`DepUpdateItem`): the loaded component plus its
dependency ids pinned to exact versions. -/
structure DepUpdateItem where
  component : ConsumerComponent
  dependencies : List BitId
  versionToTag : Option String
deriving DecidableEq, Repr

/-- Options accepted by `updateDependenciesVersions` (`UpdateDepsOptions`). -/
structure UpdateDepsOptions where
  tag : Bool
  snap : Bool
  multiple : Bool
  message : Option String
  username : Option String
  email : Option String
deriving DecidableEq, Repr

/-- Result of one build pipeline (`TaskResultsList` entry): whether it has
errors and its formatted error message. -/
structure PipeResult where
  hasErrorsFlag : Bool
  errorMessageFormatted : String
deriving DecidableEq, Repr

def PipeResult.hasErrors (p : PipeResult) : Bool := p.hasErrorsFlag

/-- Output of the builder collaborator (`builder.tagListener`): the builder
data to merge into each component plus the pipeline results. -/
structure BuildOutput where
  builderDataMap : List (BitId × List (String × ExtFieldVal))
  pipeResults : List PipeResult
deriving DecidableEq, Repr

/-- Error taxonomy of the pipeline steps that abort the batch. -/
inductive UDError where
  | componentNotFound (id : BitId)
  | resolveError (msg : String)
  | rewriteError (msg : String)
deriving DecidableEq, Repr

/-- Final result value (`UpdateDepsResult`). -/
structure UpdateDepsResult where
  depsUpdateItems : List DepUpdateItem
  publishedPackages : List String
  error : Option String
deriving DecidableEq, Repr

/-- External collaborators of the orchestrator, modelled from the spec's
interface contracts (section 6): the store, version history, snapshot
minting, the dependency-resolver service, flattened-dependency computation,
the build pipeline and package publication extraction. -/
structure Env where
  store : BitId → Option ConsumerComponent
  history : BitId → List SemVer
  snapToAdd : ConsumerComponent → String
  getDeps : ConsumerComponent → List (String × String)
  extract : ConsumerComponent → List (String × String)
  computeFlattened : ConsumerComponent → List BitId
  tagListener : List ConsumerComponent → BuildOutput
  publishedPackages : ConsumerComponent → List String
  now : String

/-- JavaScript `x || d` on optional strings (empty string is falsy). -/
def jsOrStr (o : Option String) (d : String) : String :=
  match o with
  | some s => if s == "" then d else s
  | none => d

/-- Package-name lookup in the component's dependency-resolver data
(`dependenciesList.findDependency(depIdStr)?.getPackageName?.()`). -/
def findPackageName (dl : List (String × String)) (depIdStr : String) : Option String :=
  (dl.find? (fun p => p.1 == depIdStr)).map (fun p => p.2)

/-- Success test on an `Except` value. -/
def exceptIsOk {ε α : Type _} : Except ε α → Bool
  | Except.ok _ => true
  | Except.error _ => false

/-- Step 1 (`importAllMissing`): every dependency id is imported at the
`latest` token; root component ids are added only with the `multiple`
option; the cache flag passed to `scope.import` is always `false`.
Returns the pair (ids imported, cache flag used). -/
def importAllMissing (raws : List DepUpdateItemRaw) (opts : UpdateDepsOptions) :
    List BitId × Bool :=
  let componentIds := raws.map (fun d => d.componentId)
  let dependenciesIds :=
    raws.map (fun item => item.dependencies.map (fun dep => dep.changeVersion (some LATEST)))
  let idsToImport :=
    dependenciesIds.flatten ++ (if opts.multiple then componentIds else [])
  (idsToImport, false)

/-- Dependency-spec resolution (`getDependencyWithExactVersion`): an absent
(or empty) version means the range `*`; the range is resolved against the
component's version history; no satisfying version is a thrown error. -/
def getDependencyWithExactVersion (history : BitId → List SemVer) (compId : BitId) :
    Except String BitId :=
  let range := jsOrStr compId.version "*"
  let id := compId.changeVersion none
  match getExactVersionBySemverRange (history id) range with
  | some exactVersion => Except.ok (compId.changeVersion (some exactVersion.toString))
  | none =>
    Except.error
      ("unable to find a version that satisfies \x22" ++ range ++ "\x22 of \x22" ++
        compId.toString ++ "\x22")

/-- Resolution of all dependency specs of one raw item (the `Promise.all`
inside `parseDevUpdatesItems`). -/
def resolveDeps (env : Env) : List BitId → Except UDError (List BitId)
  | [] => Except.ok []
  | d :: rest =>
    match getDependencyWithExactVersion env.history d with
    | Except.error msg => Except.error (UDError.resolveError msg)
    | Except.ok r =>
      match resolveDeps env rest with
      | Except.error e => Except.error e
      | Except.ok rs => Except.ok (r :: rs)

/-- Step 2 (`parseDevUpdatesItems`): each root component is loaded from the
store (`ComponentNotFound` when absent), then its dependency specs are
resolved to exact versions. -/
def parseDevUpdatesItems (env : Env) : List DepUpdateItemRaw → Except UDError (List DepUpdateItem)
  | [] => Except.ok []
  | raw :: rest =>
    match env.store raw.componentId with
    | none => Except.error (UDError.componentNotFound raw.componentId)
    | some component =>
      match resolveDeps env raw.dependencies with
      | Except.error e => Except.error e
      | Except.ok deps =>
        match parseDevUpdatesItems env rest with
        | Except.error e => Except.error e
        | Except.ok items =>
          Except.ok ({ component := component, dependencies := deps,
                       versionToTag := raw.versionToTag } :: items)

/-- Clean parse of a single raw item: its component is in the store and all
of its dependency specs resolve. -/
def rawParses (env : Env) (raw : DepUpdateItemRaw) : Bool :=
  (env.store raw.componentId).isSome && exceptIsOk (resolveDeps env raw.dependencies)

/-- Release request: either an exact version or a release type
(`getValidVersionOrReleaseType` from `bit-bin/dist/utils/semver-helper`). -/
inductive ReleaseSpec where
  | exact (v : String)
  | release (t : String)
deriving DecidableEq, Repr

/-- Modelled from the spec: `getValidVersionOrReleaseType` (outside `src/`)
classifies a version-spec string as an explicit version or a release-type
token. -/
def getValidVersionOrReleaseType (s : String) : ReleaseSpec :=
  match parseSemVer s with
  | some _ => ReleaseSpec.exact s
  | none => ReleaseSpec.release s

/-- Release-type bump (spec section 4.1: `1.2.3` + patch → `1.2.4`,
+ minor → `1.3.0`, + major → `2.0.0`). -/
def bumpRelease (t : String) (v : SemVer) : SemVer :=
  if t == "major" then ⟨v.major + 1, 0, 0⟩
  else if t == "minor" then ⟨v.major, v.minor + 1, 0⟩
  else ⟨v.major, v.minor, v.patch + 1⟩

/-- Modelled from the spec: `modelComponent.getVersionToAdd` (outside
`src/`) — an explicit version is used as-is; a release type bumps the
highest known version, or the initial version when no history exists. -/
def getVersionToAdd (known : List SemVer) (r : ReleaseSpec) : String :=
  match r with
  | ReleaseSpec.exact v => v
  | ReleaseSpec.release t =>
    match maxSatisfying "*" known with
    | some cur => (bumpRelease t cur).toString
    | none => (bumpRelease t ⟨0, 0, 0⟩).toString

/-- Version planned for one item by step 3: a tag resolves the item's
`versionToTag` (default `patch`) against the component's history; otherwise
a content-addressed snapshot token is minted. -/
def plannedVersion (env : Env) (opts : UpdateDepsOptions) (it : DepUpdateItem) : String :=
  if opts.tag then
    getVersionToAdd (env.history (it.component.id.changeVersion none))
      (getValidVersionOrReleaseType (jsOrStr it.versionToTag "patch"))
  else env.snapToAdd it.component

/-- Step 3 (`updateFutureVersion`): assigns every item's next version. -/
def updateFutureVersion (env : Env) (opts : UpdateDepsOptions)
    (items : List DepUpdateItem) : List DepUpdateItem :=
  items.map (fun it =>
    { it with component := { it.component with version := some (plannedVersion env opts it) } })

/-- Aspect id of the dependency-resolver extension
(`DependencyResolverAspect.id`). -/
def depResolverId : String := "teambit.dependencies/dependency-resolver"

/-- Aspect id of the builder extension, used when merging build results. -/
def builderId : String := "teambit.pipelines/builder"

/-- Replacement of the value under a key of a JS object (first occurrence,
appended when absent). -/
def setKey (k : String) (v : ExtFieldVal) :
    List (String × ExtFieldVal) → List (String × ExtFieldVal)
  | [] => [(k, v)]
  | kv :: rest => if kv.1 == k then (kv.1, v) :: rest else kv :: setKey k v rest

/-- JS `Object.assign(target, src)` on shallow objects. -/
def objectAssign (target src : List (String × ExtFieldVal)) :
    List (String × ExtFieldVal) :=
  src.foldl (fun acc kv => setKey kv.1 kv.2 acc) target

/-- Lookup of a top-level key of an extension's data object. -/
def lookupKey (k : String) (l : List (String × ExtFieldVal)) : Option ExtFieldVal :=
  (l.find? (fun kv => kv.1 == k)).map (fun kv => kv.2)

/-- In-place update of the first list entry satisfying a predicate. -/
def updateFirstWhere (p : ExtensionDataEntry → Bool)
    (f : ExtensionDataEntry → ExtensionDataEntry) :
    List ExtensionDataEntry → List ExtensionDataEntry
  | [] => []
  | e :: rest => if p e then f e :: rest else e :: updateFirstWhere p f rest

/-- Step 5 (`updateDependencyResolver`): the freshly extracted dependency
records are merged into the existing dependency-resolver extension entry at
the top level only (`Object.assign` on its `data`); when no such entry
exists a new one is appended. -/
def updateDependencyResolver (extracted : List (String × String))
    (c : ConsumerComponent) : ConsumerComponent :=
  let data : List (String × ExtFieldVal) := [("dependencies", ExtFieldVal.deps extracted)]
  if c.extensions.any (fun e => e.stringId == depResolverId) then
    { c with
      extensions :=
        updateFirstWhere (fun e => e.stringId == depResolverId)
          (fun e => { e with data := objectAssign e.data data }) c.extensions }
  else
    { c with
      extensions :=
        c.extensions ++ [{ extensionId := none, name := some depResolverId, data := data }] }

/-- Rewrite of one dependency edge once the rewrite of the whole list is
known to succeed: a matched edge takes the matched id and the re-derived
package name, an unmatched edge is untouched. -/
def rewriteDep (updatedIds : List BitId) (dl : List (String × String))
    (dep : Dependency) : Dependency :=
  match searchWithoutVersion updatedIds dep.id with
  | some updatedBitId => { id := updatedBitId, packageName := findPackageName dl dep.id.toString }
  | none => dep

/-- Edge-list rewrite loop of `updateDependenciesVersionsOfComponent`: edges
are processed in order; a matched edge whose package name cannot be derived
throws, leaving that edge and the remaining edges untouched (edges already
processed keep their mutation). -/
def rewriteDeps (updatedIds : List BitId) (dl : List (String × String))
    (componentIdStr : String) : List Dependency → List Dependency × Option String
  | [] => ([], none)
  | dep :: rest =>
    match searchWithoutVersion updatedIds dep.id with
    | some updatedBitId =>
      match findPackageName dl dep.id.toString with
      | some packageName =>
        let r := rewriteDeps updatedIds dl componentIdStr rest
        ({ id := updatedBitId, packageName := some packageName } :: r.1, r.2)
      | none =>
        (dep :: rest,
          some ("unable to find the package-name of \x22" ++ dep.id.toString ++
            "\x22 dependency inside the dependency-resolver data of \x22" ++
            componentIdStr ++ "\x22"))
    | none =>
      let r := rewriteDeps updatedIds dl componentIdStr rest
      (dep :: r.1, r.2)

/-- Extension-reference rewrite of `updateDependenciesVersionsOfComponent`:
an extension whose referenced id matches the lookup set takes the matched
id; others are untouched. -/
def rewriteExtension (updatedIds : List BitId) (ext : ExtensionDataEntry) :
    ExtensionDataEntry :=
  match ext.extensionId with
  | none => ext
  | some extId =>
    match searchWithoutVersion updatedIds extId with
    | some updatedBitId => { ext with extensionId := some updatedBitId }
    | none => ext

/-- Step 4 per component (`updateDependenciesVersionsOfComponent`): the
lookup set is the batch ids followed by the item's resolved dependency ids;
runtime then dev dependencies are rewritten in order, then extension
references.  A missing package name for a matched edge throws, keeping the
mutations already made. -/
def updateDependenciesVersionsOfComponent (c : ConsumerComponent)
    (dependencies : List BitId) (currentBitIds : List BitId)
    (dl : List (String × String)) : ConsumerComponent × Option String :=
  let updatedIds := currentBitIds ++ dependencies
  let componentIdStr := c.id.toString
  let r1 := rewriteDeps updatedIds dl componentIdStr c.dependencies
  match r1.2 with
  | some e => ({ c with dependencies := r1.1 }, some e)
  | none =>
    let r2 := rewriteDeps updatedIds dl componentIdStr c.devDependencies
    match r2.2 with
    | some e => ({ c with dependencies := r1.1, devDependencies := r2.1 }, some e)
    | none =>
      ({ c with
          dependencies := r1.1
          devDependencies := r2.1
          extensions := c.extensions.map (rewriteExtension updatedIds) }, none)

/-- Processing of one batch item by `updateAllDeps` when it succeeds:
dependency rewrite followed by the dependency-resolver metadata update. -/
def processItem (env : Env) (currentBitIds : List BitId) (item : DepUpdateItem) :
    DepUpdateItem :=
  let r := updateDependenciesVersionsOfComponent item.component item.dependencies
    currentBitIds (env.getDeps item.component)
  { item with component := updateDependencyResolver (env.extract r.1) r.1 }

/-- Sequential loop of `updateAllDeps` (`mapSeries`): items are processed in
order; the first failure stops the loop, keeping the mutations already made
and leaving the remaining items untouched. -/
def updateAllDepsGo (env : Env) (currentBitIds : List BitId) :
    List DepUpdateItem → List DepUpdateItem × Option String
  | [] => ([], none)
  | item :: rest =>
    let r := updateDependenciesVersionsOfComponent item.component item.dependencies
      currentBitIds (env.getDeps item.component)
    match r.2 with
    | some e => ({ item with component := r.1 } :: rest, some e)
    | none =>
      let c2 := updateDependencyResolver (env.extract r.1) r.1
      let rec' := updateAllDepsGo env currentBitIds rest
      ({ item with component := c2 } :: rec'.1, rec'.2)

/-- Step 4 (`updateAllDeps`): the batch's current ids (carrying the planned
versions) are collected once up front and every item is rewritten against
them. -/
def updateAllDeps (env : Env) (items : List DepUpdateItem) :
    List DepUpdateItem × Option String :=
  updateAllDepsGo env (items.map (fun d => d.component.id)) items

/-- Step 6 (`addLogToComponents`): provenance entry, defaulting to the
automated `ci` identity. -/
def addLogToComponents (opts : UpdateDepsOptions) (now : String)
    (items : List DepUpdateItem) : List DepUpdateItem :=
  items.map (fun it =>
    { it with component := { it.component with log := some {
        username := jsOrStr opts.username "ci"
        email := jsOrStr opts.email "ci@bit.dev"
        message := jsOrStr opts.message "update-dependencies"
        date := now } } })

/-- `addFlattenedDependenciesToComponents` (external computation of the
flattened dependency closure, stored on each component). -/
def addFlattenedStep (env : Env) (items : List DepUpdateItem) : List DepUpdateItem :=
  items.map (fun it =>
    { it with component :=
        { it.component with flattenedDependencies := env.computeFlattened it.component } })

/-- `addBuildStatus`: every component is stamped `Pending` before the build. -/
def setPendingStatus (items : List DepUpdateItem) : List DepUpdateItem :=
  items.map (fun it =>
    { it with component := { it.component with buildStatus := some BuildStatus.pending } })

/-- Modelled from the spec: `updateComponentsByTagResult` (outside `src/`)
merges the per-component build artifact data into the component's extension
metadata, leaving everything else untouched. -/
def applyTagResult (m : List (BitId × List (String × ExtFieldVal)))
    (c : ConsumerComponent) : ConsumerComponent :=
  match m.find? (fun p => p.1.isEqualWithoutVersion c.id) with
  | none => c
  | some p =>
    if c.extensions.any (fun e => e.stringId == builderId) then
      { c with
        extensions :=
          updateFirstWhere (fun e => e.stringId == builderId)
            (fun e => { e with data := objectAssign e.data p.2 }) c.extensions }
    else
      { c with
        extensions :=
          c.extensions ++ [{ extensionId := none, name := some builderId, data := p.2 }] }

/-- Step 10 commit (`saveDataIntoLocalScope`): every component of the batch
is persisted with the single build status computed for the batch. -/
def saveDataIntoLocalScope (buildStatus : BuildStatus) (items : List DepUpdateItem) :
    List DepUpdateItem :=
  items.map (fun it =>
    { it with component := { it.component with buildStatus := some buildStatus } })

/-- Observable outcome of a successful pipeline run: the returned result,
the build pipeline results, the import call made, the components persisted
by the commit, whether the store flush ran, and which finalization path
(export vs. cache clear) was taken. -/
structure PipelineOutcome where
  result : UpdateDepsResult
  pipeResults : List PipeResult
  importedIds : List BitId
  importUsedCache : Bool
  persisted : List ConsumerComponent
  persistedFlush : Bool
  exported : Bool
deriving DecidableEq, Repr

/-- Tail of the orchestrator after a successful dependency rewrite: log and
flattened-dependency stamping, `Pending` status, build, build-result merge,
batch build status, commit, and finalization. -/
def pipelineAfterRewrite (env : Env) (opts : UpdateDepsOptions)
    (imported : List BitId × Bool) (items : List DepUpdateItem) : PipelineOutcome :=
  let logged := addLogToComponents opts env.now items
  let flattened := addFlattenedStep env logged
  let pending := setPendingStatus flattened
  let buildOut := env.tagListener (pending.map (fun d => d.component))
  let merged := pending.map (fun it =>
    { it with component := applyTagResult buildOut.builderDataMap it.component })
  let publishedPackages := (merged.map (fun d => env.publishedPackages d.component)).flatten
  let pipeWithError := buildOut.pipeResults.find? (fun pipe => pipe.hasErrors)
  let buildStatus :=
    if pipeWithError.isSome then BuildStatus.failed else BuildStatus.succeed
  let saved := saveDataIntoLocalScope buildStatus merged
  { result :=
      { depsUpdateItems := saved
        publishedPackages := publishedPackages
        error := pipeWithError.map (fun pipe => pipe.errorMessageFormatted) }
    pipeResults := buildOut.pipeResults
    importedIds := imported.1
    importUsedCache := imported.2
    persisted := saved.map (fun d => d.component)
    persistedFlush := true
    exported := opts.multiple }

/-- Orchestrator (`updateDependenciesVersions`): import, parse/resolve,
plan versions, rewrite dependencies, then the post-rewrite tail.  Steps 1–7
fail fast: a parse or rewrite failure aborts the batch before any commit. -/
def updateDependenciesVersions (env : Env) (raws : List DepUpdateItemRaw)
    (opts : UpdateDepsOptions) : Except UDError PipelineOutcome :=
  let imported := importAllMissing raws opts
  match parseDevUpdatesItems env raws with
  | Except.error e => Except.error e
  | Except.ok parsed =>
    let rewritten := updateAllDeps env (updateFutureVersion env opts parsed)
    match rewritten.2 with
    | some msg => Except.error (UDError.rewriteError msg)
    | none => Except.ok (pipelineAfterRewrite env opts imported rewritten.1)

/-! ### Order lemmas for the semver model -/

theorem SemVer.leb_iff (a b : SemVer) : a.leb b = true ↔
    a.major < b.major ∨ (a.major = b.major ∧
      (a.minor < b.minor ∨ (a.minor = b.minor ∧ a.patch ≤ b.patch))) := by
  simp [SemVer.leb, Nat.blt_eq, Nat.ble_eq, Nat.beq_eq_true_eq, Bool.or_eq_true,
    Bool.and_eq_true]

theorem SemVer.leb_total (a b : SemVer) : a.leb b = true ∨ b.leb a = true := by
  rw [SemVer.leb_iff, SemVer.leb_iff]
  omega

theorem SemVer.leb_trans {a b c : SemVer} (h1 : a.leb b = true) (h2 : b.leb c = true) :
    a.leb c = true := by
  rw [SemVer.leb_iff] at h1 h2 ⊢
  omega

theorem SemVer.leb_refl (a : SemVer) : a.leb a = true := by
  rw [SemVer.leb_iff]
  omega

theorem maxSatisfying_none {r : String} {vs : List SemVer}
    (h : maxSatisfying r vs = none) : ∀ v ∈ vs, satisfiesRange r v = false := by
  induction vs with
  | nil => intro v hv; cases hv
  | cons w rest ih =>
    intro v hv
    cases hrest : maxSatisfying r rest with
    | none =>
      by_cases hw : satisfiesRange r w = true
      · simp only [maxSatisfying, hrest, hw, if_true] at h
        simp at h
      · rcases List.mem_cons.mp hv with hv | hv
        · subst hv; exact Bool.eq_false_iff.mpr hw
        · exact ih hrest v hv
    | some m =>
      by_cases hw : satisfiesRange r w = true
      · simp only [maxSatisfying, hrest, hw, if_true] at h
        by_cases hlm : m.leb w = true
        · rw [if_pos hlm] at h; cases h
        · rw [if_neg hlm] at h; cases h
      · simp only [maxSatisfying, hrest, hw, if_false, Bool.false_eq_true] at h
        simp at h

theorem maxSatisfying_mem_sat {r : String} {vs : List SemVer} {v : SemVer}
    (h : maxSatisfying r vs = some v) : v ∈ vs ∧ satisfiesRange r v = true := by
  induction vs generalizing v with
  | nil => cases h
  | cons w rest ih =>
    cases hrest : maxSatisfying r rest with
    | none =>
      by_cases hw : satisfiesRange r w = true
      · simp only [maxSatisfying, hrest, hw, if_true] at h
        cases h
        exact ⟨List.mem_cons_self w rest, hw⟩
      · simp only [maxSatisfying, hrest, hw, if_false, Bool.false_eq_true] at h
        simp at h
    | some m =>
      by_cases hw : satisfiesRange r w = true
      · simp only [maxSatisfying, hrest, hw, if_true] at h
        by_cases hlm : m.leb w = true
        · rw [if_pos hlm] at h
          cases h
          exact ⟨List.mem_cons_self w rest, hw⟩
        · rw [if_neg hlm] at h
          cases h
          obtain ⟨h1, h2⟩ := ih hrest
          exact ⟨List.mem_cons_of_mem w h1, h2⟩
      · simp only [maxSatisfying, hrest, hw, if_false, Bool.false_eq_true] at h
        cases h
        obtain ⟨h1, h2⟩ := ih hrest
        exact ⟨List.mem_cons_of_mem w h1, h2⟩

theorem maxSatisfying_ge {r : String} {vs : List SemVer} {v : SemVer}
    (h : maxSatisfying r vs = some v) :
    ∀ w ∈ vs, satisfiesRange r w = true → w.leb v = true := by
  induction vs generalizing v with
  | nil => intro w hw; cases hw
  | cons u rest ih =>
    intro w hw hsw
    cases hrest : maxSatisfying r rest with
    | none =>
      by_cases hu : satisfiesRange r u = true
      · simp only [maxSatisfying, hrest, hu, if_true] at h
        cases h
        rcases List.mem_cons.mp hw with hw | hw
        · subst hw; exact SemVer.leb_refl w
        · have hfail := maxSatisfying_none hrest w hw
          rw [hfail] at hsw
          cases hsw
      · simp only [maxSatisfying, hrest, hu, if_false, Bool.false_eq_true] at h
        simp at h
    | some m =>
      by_cases hu : satisfiesRange r u = true
      · simp only [maxSatisfying, hrest, hu, if_true] at h
        by_cases hlm : m.leb u = true
        · rw [if_pos hlm] at h
          cases h
          rcases List.mem_cons.mp hw with hw | hw
          · subst hw; exact SemVer.leb_refl w
          · exact SemVer.leb_trans (ih hrest w hw hsw) hlm
        · rw [if_neg hlm] at h
          cases h
          rcases List.mem_cons.mp hw with hw | hw
          · subst hw
            rcases SemVer.leb_total w v with htot | htot
            · exact htot
            · exact absurd htot hlm
          · exact ih hrest w hw hsw
      · simp only [maxSatisfying, hrest, hu, if_false, Bool.false_eq_true] at h
        cases h
        rcases List.mem_cons.mp hw with hw | hw
        · subst hw
          rw [hsw] at hu
          exact absurd rfl hu
        · exact ih hrest w hw hsw

/-! ### Generic list helpers -/

theorem find?_isSome_eq_any {α : Type _} (l : List α) (p : α → Bool) :
    (l.find? p).isSome = l.any p := by
  cases hf : l.find? p with
  | none =>
    rw [List.find?_eq_none] at hf
    simp only [Option.isSome_none]
    symm
    simp only [List.any_eq_false]
    intro x hx
    exact hf x hx
  | some x =>
    have hp := List.find?_some hf
    have hm := List.mem_of_find?_eq_some hf
    simp only [Option.isSome_some]
    symm
    rw [List.any_eq_true]
    exact ⟨x, hm, hp⟩

theorem find?_append_some {α : Type _} {l1 l2 : List α} {p : α → Bool} {a : α}
    (h : l1.find? p = some a) : (l1 ++ l2).find? p = some a := by
  rw [List.find?_append, h]
  rfl

theorem find?_eq_getElem_of_first {α : Type _} (l : List α) (p : α → Bool) (j : Nat)
    (hj : j < l.length) (hpj : p l[j] = true)
    (hlt : ∀ i (h2 : i < l.length), i < j → p l[i] = false) :
    l.find? p = some l[j] := by
  induction l generalizing j with
  | nil => cases hj
  | cons a t ih =>
    cases j with
    | zero =>
      simp only [List.getElem_cons_zero] at hpj ⊢
      exact List.find?_cons_of_pos t hpj
    | succ j2 =>
      have ha : p a = false := by
        have := hlt 0 (by simp) (by omega)
        simpa using this
      rw [List.find?_cons_of_neg t (by simp [ha])]
      have hj2 : j2 < t.length := by simpa using hj
      have hpj2 : p t[j2] = true := by simpa using hpj
      have hlt2 : ∀ i (h2 : i < t.length), i < j2 → p t[i] = false := by
        intro i h2 hij
        have := hlt (i + 1) (by simp; omega) (by omega)
        simpa using this
      simpa using ih j2 hj2 hpj2 hlt2

/-! ### Characterization of the per-component rewrite -/

theorem rewriteDeps_ok {u : List BitId} {dl : List (String × String)} {s : String}
    {deps : List Dependency} (h : (rewriteDeps u dl s deps).2 = none) :
    (rewriteDeps u dl s deps).1 = deps.map (rewriteDep u dl) := by
  induction deps with
  | nil => simp [rewriteDeps]
  | cons dep rest ih =>
    cases hs : searchWithoutVersion u dep.id with
    | none =>
      simp only [rewriteDeps, hs] at h ⊢
      have := ih h
      simp [rewriteDep, hs, this]
    | some ub =>
      cases hp : findPackageName dl dep.id.toString with
      | none =>
        simp only [rewriteDeps, hs, hp] at h
        simp at h
      | some pn =>
        simp only [rewriteDeps, hs, hp] at h ⊢
        have := ih h
        simp [rewriteDep, hs, hp, this]

/-- Frame of `updateDependenciesVersionsOfComponent` over the component
fields it never touches, in every branch (success and failure). -/
theorem updComp_frame (c : ConsumerComponent) (ds cur : List BitId)
    (dl : List (String × String)) :
    (updateDependenciesVersionsOfComponent c ds cur dl).1.scope = c.scope ∧
    (updateDependenciesVersionsOfComponent c ds cur dl).1.name = c.name ∧
    (updateDependenciesVersionsOfComponent c ds cur dl).1.version = c.version ∧
    (updateDependenciesVersionsOfComponent c ds cur dl).1.buildStatus = c.buildStatus ∧
    (updateDependenciesVersionsOfComponent c ds cur dl).1.log = c.log ∧
    (updateDependenciesVersionsOfComponent c ds cur dl).1.flattenedDependencies =
      c.flattenedDependencies := by
  simp only [updateDependenciesVersionsOfComponent]
  cases (rewriteDeps (cur ++ ds) dl c.id.toString c.dependencies).2 with
  | some e => exact ⟨rfl, rfl, rfl, rfl, rfl, rfl⟩
  | none =>
    cases (rewriteDeps (cur ++ ds) dl c.id.toString c.devDependencies).2 with
    | some e => exact ⟨rfl, rfl, rfl, rfl, rfl, rfl⟩
    | none => exact ⟨rfl, rfl, rfl, rfl, rfl, rfl⟩

theorem updComp_ok {c : ConsumerComponent} {ds cur : List BitId}
    {dl : List (String × String)}
    (h : (updateDependenciesVersionsOfComponent c ds cur dl).2 = none) :
    (updateDependenciesVersionsOfComponent c ds cur dl).1 =
      { c with
          dependencies := c.dependencies.map (rewriteDep (cur ++ ds) dl)
          devDependencies := c.devDependencies.map (rewriteDep (cur ++ ds) dl)
          extensions := c.extensions.map (rewriteExtension (cur ++ ds)) } := by
  simp only [updateDependenciesVersionsOfComponent] at h ⊢
  cases h1 : (rewriteDeps (cur ++ ds) dl c.id.toString c.dependencies).2 with
  | some e => simp only [h1] at h; simp at h
  | none =>
    simp only [h1] at h ⊢
    cases h2 : (rewriteDeps (cur ++ ds) dl c.id.toString c.devDependencies).2 with
    | some e => simp only [h2] at h; simp at h
    | none =>
      simp only [h2]
      rw [rewriteDeps_ok h1, rewriteDeps_ok h2]

/-- Frame of `updateDependencyResolver`: only the extension list changes. -/
theorem updRes_frame (x : List (String × String)) (c : ConsumerComponent) :
    (updateDependencyResolver x c).scope = c.scope ∧
    (updateDependencyResolver x c).name = c.name ∧
    (updateDependencyResolver x c).version = c.version ∧
    (updateDependencyResolver x c).dependencies = c.dependencies ∧
    (updateDependencyResolver x c).devDependencies = c.devDependencies ∧
    (updateDependencyResolver x c).buildStatus = c.buildStatus ∧
    (updateDependencyResolver x c).log = c.log ∧
    (updateDependencyResolver x c).flattenedDependencies = c.flattenedDependencies := by
  simp only [updateDependencyResolver]
  by_cases hx : c.extensions.any (fun e => e.stringId == depResolverId) = true
  · rw [if_pos hx]
    exact ⟨rfl, rfl, rfl, rfl, rfl, rfl, rfl, rfl⟩
  · rw [if_neg hx]
    exact ⟨rfl, rfl, rfl, rfl, rfl, rfl, rfl, rfl⟩

theorem processItem_component_version (env : Env) (cur : List BitId)
    (it : DepUpdateItem) :
    (processItem env cur it).component.version = it.component.version := by
  simp only [processItem]
  rw [(updRes_frame _ _).2.2.1]
  exact (updComp_frame _ _ _ _).2.2.1

theorem processItem_item_fields (env : Env) (cur : List BitId) (it : DepUpdateItem) :
    (processItem env cur it).dependencies = it.dependencies ∧
    (processItem env cur it).versionToTag = it.versionToTag := by
  exact ⟨rfl, rfl⟩

/-- Dependencies of a successfully processed item: the metadata update does
not touch them, so they are exactly the rewritten edges. -/
theorem processItem_deps_ok {env : Env} {cur : List BitId} {it : DepUpdateItem}
    (h : (updateDependenciesVersionsOfComponent it.component it.dependencies cur
      (env.getDeps it.component)).2 = none) :
    (processItem env cur it).component.dependencies =
      it.component.dependencies.map
        (rewriteDep (cur ++ it.dependencies) (env.getDeps it.component)) := by
  simp only [processItem]
  rw [(updRes_frame _ _).2.2.2.1]
  rw [updComp_ok h]

/-! ### The sequential rewrite loop -/

theorem go_ok_map {env : Env} {cur : List BitId} {items : List DepUpdateItem}
    (h : (updateAllDepsGo env cur items).2 = none) :
    (updateAllDepsGo env cur items).1 = items.map (processItem env cur) := by
  induction items with
  | nil => rfl
  | cons item rest ih =>
    cases hr : (updateDependenciesVersionsOfComponent item.component item.dependencies cur
        (env.getDeps item.component)).2 with
    | some e =>
      simp only [updateAllDepsGo, hr] at h
      simp at h
    | none =>
      simp only [updateAllDepsGo, hr] at h ⊢
      rw [ih h]
      rfl

theorem go_ok_each {env : Env} {cur : List BitId} {items : List DepUpdateItem}
    (h : (updateAllDepsGo env cur items).2 = none) :
    ∀ it ∈ items, (updateDependenciesVersionsOfComponent it.component it.dependencies cur
      (env.getDeps it.component)).2 = none := by
  induction items with
  | nil => intro it hit; cases hit
  | cons item rest ih =>
    intro it hit
    cases hr : (updateDependenciesVersionsOfComponent item.component item.dependencies cur
        (env.getDeps item.component)).2 with
    | some e =>
      simp only [updateAllDepsGo, hr] at h
      simp at h
    | none =>
      simp only [updateAllDepsGo, hr] at h
      rcases List.mem_cons.mp hit with hit | hit
      · subst hit; exact hr
      · exact ih h it hit

/-- Failure shape of the loop: items before the failing one are processed
(hence mutated), the failing one keeps its partial rewrite, and every item
after it is untouched. -/
theorem go_fail {env : Env} {cur : List BitId} {pre post : List DepUpdateItem}
    {bad : DepUpdateItem} {e : String}
    (hpre : ∀ it ∈ pre, (updateDependenciesVersionsOfComponent it.component it.dependencies cur
      (env.getDeps it.component)).2 = none)
    (hbad : (updateDependenciesVersionsOfComponent bad.component bad.dependencies cur
      (env.getDeps bad.component)).2 = some e) :
    updateAllDepsGo env cur (pre ++ bad :: post) =
      (pre.map (processItem env cur) ++
        ({ bad with component := (updateDependenciesVersionsOfComponent bad.component
            bad.dependencies cur (env.getDeps bad.component)).1 } :: post),
       some e) := by
  induction pre with
  | nil =>
    simp only [List.nil_append, List.map_nil, updateAllDepsGo, hbad]
  | cons item rest ih =>
    have hitem := hpre item (List.mem_cons_self item rest)
    have hrest : ∀ it ∈ rest, (updateDependenciesVersionsOfComponent it.component it.dependencies
        cur (env.getDeps it.component)).2 = none :=
      fun it hit => hpre it (List.mem_cons_of_mem item hit)
    simp only [List.cons_append, updateAllDepsGo, hitem, List.append_eq, ih hrest]
    simp [processItem]

/-! ### Parse/resolve step lemmas -/

theorem parse_ok_length {env : Env} {raws : List DepUpdateItemRaw}
    {items : List DepUpdateItem}
    (h : parseDevUpdatesItems env raws = Except.ok items) :
    items.length = raws.length := by
  induction raws generalizing items with
  | nil =>
    simp only [parseDevUpdatesItems] at h
    cases h
    rfl
  | cons raw rest ih =>
    cases hs : env.store raw.componentId with
    | none =>
      simp only [parseDevUpdatesItems, hs] at h
      exact Except.noConfusion h
    | some c =>
      cases hr : resolveDeps env raw.dependencies with
      | error e =>
        simp only [parseDevUpdatesItems, hs, hr] at h
        exact Except.noConfusion h
      | ok ds =>
        cases hp : parseDevUpdatesItems env rest with
        | error e =>
          simp only [parseDevUpdatesItems, hs, hr, hp] at h
          exact Except.noConfusion h
        | ok tailItems =>
          simp only [parseDevUpdatesItems, hs, hr, hp] at h
          cases h
          simp [ih hp]

theorem parse_prepend_error {env : Env} {pre rest : List DepUpdateItemRaw} {e : UDError}
    (hpre : ∀ raw ∈ pre, rawParses env raw = true)
    (h : parseDevUpdatesItems env rest = Except.error e) :
    parseDevUpdatesItems env (pre ++ rest) = Except.error e := by
  induction pre with
  | nil => simpa using h
  | cons raw pre2 ih =>
    have hraw := hpre raw (List.mem_cons_self raw pre2)
    have hpre2 : ∀ r2 ∈ pre2, rawParses env r2 = true :=
      fun r2 hr2 => hpre r2 (List.mem_cons_of_mem raw hr2)
    rw [rawParses, Bool.and_eq_true] at hraw
    obtain ⟨c, hc⟩ := Option.isSome_iff_exists.mp hraw.1
    have hok : ∃ ds, resolveDeps env raw.dependencies = Except.ok ds := by
      cases hres : resolveDeps env raw.dependencies with
      | error e2 => rw [hres] at hraw; simp [exceptIsOk] at hraw
      | ok ds => exact ⟨ds, rfl⟩
    obtain ⟨ds, hds⟩ := hok
    simp only [List.cons_append, parseDevUpdatesItems, hc, hds, List.append_eq, ih hpre2]

/-! ### Pipeline shape lemmas -/

theorem pipeline_error_of_parse {env : Env} {raws : List DepUpdateItemRaw}
    {opts : UpdateDepsOptions} {e : UDError}
    (h : parseDevUpdatesItems env raws = Except.error e) :
    updateDependenciesVersions env raws opts = Except.error e := by
  simp [updateDependenciesVersions, h]

theorem pipeline_ok_inv {env : Env} {raws : List DepUpdateItemRaw}
    {opts : UpdateDepsOptions} {out : PipelineOutcome}
    (h : updateDependenciesVersions env raws opts = Except.ok out) :
    ∃ parsed, parseDevUpdatesItems env raws = Except.ok parsed ∧
      (updateAllDeps env (updateFutureVersion env opts parsed)).2 = none ∧
      out = pipelineAfterRewrite env opts (importAllMissing raws opts)
        (updateAllDeps env (updateFutureVersion env opts parsed)).1 := by
  unfold updateDependenciesVersions at h
  cases hp : parseDevUpdatesItems env raws with
  | error e =>
    rw [hp] at h
    simp at h
  | ok parsed =>
    rw [hp] at h
    cases hr : (updateAllDeps env (updateFutureVersion env opts parsed)).2 with
    | some msg =>
      simp only [hr] at h
      simp at h
    | none =>
      simp only [hr] at h
      refine ⟨parsed, rfl, hr, ?_⟩
      simpa using h.symm

theorem applyTagResult_version (m : List (BitId × List (String × ExtFieldVal)))
    (c : ConsumerComponent) : (applyTagResult m c).version = c.version := by
  cases hm : m.find? (fun p => p.1.isEqualWithoutVersion c.id) with
  | none => simp [applyTagResult, hm]
  | some p =>
    simp only [applyTagResult, hm]
    by_cases hx : c.extensions.any (fun e => e.stringId == builderId) = true
    · rw [if_pos hx]
    · rw [if_neg hx]

theorem after_error (env : Env) (opts : UpdateDepsOptions) (imp : List BitId × Bool)
    (items : List DepUpdateItem) :
    (pipelineAfterRewrite env opts imp items).result.error =
      ((pipelineAfterRewrite env opts imp items).pipeResults.find?
        (fun pipe => pipe.hasErrors)).map (fun pipe => pipe.errorMessageFormatted) := by
  rfl

theorem after_persisted_eq (env : Env) (opts : UpdateDepsOptions) (imp : List BitId × Bool)
    (items : List DepUpdateItem) :
    (pipelineAfterRewrite env opts imp items).persisted =
      (pipelineAfterRewrite env opts imp items).result.depsUpdateItems.map
        (fun d => d.component) := by
  rfl

theorem after_flush (env : Env) (opts : UpdateDepsOptions) (imp : List BitId × Bool)
    (items : List DepUpdateItem) :
    (pipelineAfterRewrite env opts imp items).persistedFlush = true := by
  rfl

theorem after_status (env : Env) (opts : UpdateDepsOptions) (imp : List BitId × Bool)
    (items : List DepUpdateItem) :
    ∀ c ∈ (pipelineAfterRewrite env opts imp items).persisted,
      c.buildStatus = some
        (if (pipelineAfterRewrite env opts imp items).pipeResults.any
            (fun pipe => pipe.hasErrors)
         then BuildStatus.failed else BuildStatus.succeed) := by
  intro c hc
  simp only [pipelineAfterRewrite, saveDataIntoLocalScope, List.map_map, List.mem_map] at hc
  obtain ⟨it, hit, rfl⟩ := hc
  simp only [pipelineAfterRewrite, Function.comp]
  rw [find?_isSome_eq_any]

theorem after_length (env : Env) (opts : UpdateDepsOptions) (imp : List BitId × Bool)
    (items : List DepUpdateItem) :
    (pipelineAfterRewrite env opts imp items).result.depsUpdateItems.length =
      items.length := by
  simp [pipelineAfterRewrite, saveDataIntoLocalScope, addLogToComponents,
    addFlattenedStep, setPendingStatus]

theorem after_versions (env : Env) (opts : UpdateDepsOptions) (imp : List BitId × Bool)
    (items : List DepUpdateItem) :
    (pipelineAfterRewrite env opts imp items).result.depsUpdateItems.map
      (fun d => d.component.version) =
      items.map (fun d => d.component.version) := by
  simp only [pipelineAfterRewrite, saveDataIntoLocalScope, addLogToComponents,
    addFlattenedStep, setPendingStatus, List.map_map]
  apply List.map_congr_left
  intro it hit
  simp [Function.comp, applyTagResult_version]

theorem updateAllDeps_ok_length {env : Env} {items : List DepUpdateItem}
    (h : (updateAllDeps env items).2 = none) :
    (updateAllDeps env items).1.length = items.length := by
  unfold updateAllDeps at h ⊢
  rw [go_ok_map h]
  simp

theorem updateAllDeps_ok_versions {env : Env} {items : List DepUpdateItem}
    (h : (updateAllDeps env items).2 = none) :
    (updateAllDeps env items).1.map (fun d => d.component.version) =
      items.map (fun d => d.component.version) := by
  unfold updateAllDeps at h ⊢
  rw [go_ok_map h, List.map_map]
  apply List.map_congr_left
  intro it hit
  simp [Function.comp]
  exact processItem_component_version env _ it

theorem updateFutureVersion_versions (env : Env) (opts : UpdateDepsOptions)
    (items : List DepUpdateItem) :
    (updateFutureVersion env opts items).map (fun d => d.component.version) =
      items.map (fun it => some (plannedVersion env opts it)) := by
  simp [updateFutureVersion, List.map_map, Function.comp]

theorem updateFutureVersion_length (env : Env) (opts : UpdateDepsOptions)
    (items : List DepUpdateItem) :
    (updateFutureVersion env opts items).length = items.length := by
  simp [updateFutureVersion]

/-! ### Claim theorems -/

/-- C7: the import step always calls the store with cache disabled, imports
every dependency identifier of the batch at the latest-version token
regardless of the requested range, and imports the root component
identifiers themselves if and only if the `multiple` option is set (an
imported id is either a dependency pinned to `latest` or, under `multiple`,
a root id). -/
theorem spec_c7 (raws : List DepUpdateItemRaw) (opts : UpdateDepsOptions) :
    (importAllMissing raws opts).2 = false ∧
    (∀ raw ∈ raws, ∀ dep ∈ raw.dependencies,
      dep.changeVersion (some LATEST) ∈ (importAllMissing raws opts).1) ∧
    (opts.multiple = true →
      ∀ raw ∈ raws, raw.componentId ∈ (importAllMissing raws opts).1) ∧
    (opts.multiple = false →
      (importAllMissing raws opts).1 =
        (raws.map (fun r => r.dependencies.map
          (fun dep => dep.changeVersion (some LATEST)))).flatten) ∧
    (∀ x ∈ (importAllMissing raws opts).1,
      (∃ raw ∈ raws, ∃ dep ∈ raw.dependencies, x = dep.changeVersion (some LATEST)) ∨
      (opts.multiple = true ∧ ∃ raw ∈ raws, x = raw.componentId)) := by
  refine ⟨rfl, ?_, ?_, ?_, ?_⟩
  · intro raw hraw dep hdep
    simp only [importAllMissing, List.mem_append, List.mem_flatten, List.mem_map]
    left
    exact ⟨raw.dependencies.map (fun dep => dep.changeVersion (some LATEST)),
      ⟨raw, hraw, rfl⟩, List.mem_map_of_mem _ hdep⟩
  · intro hm raw hraw
    simp only [importAllMissing, hm, if_true, List.mem_append, List.mem_map]
    right
    exact ⟨raw, hraw, rfl⟩
  · intro hm
    simp [importAllMissing, hm]
  · intro x hx
    simp only [importAllMissing, List.mem_append, List.mem_flatten, List.mem_map] at hx
    rcases hx with hx | hx
    · obtain ⟨l, ⟨raw, hraw, rfl⟩, hxl⟩ := hx
      obtain ⟨dep, hdep, rfl⟩ := List.mem_map.mp hxl
      exact Or.inl ⟨raw, hraw, dep, hdep, rfl⟩
    · by_cases hm : opts.multiple = true
      · rw [hm] at hx
        simp only [if_true, List.mem_map] at hx
        obtain ⟨raw, hraw, rfl⟩ := hx
        exact Or.inr ⟨hm, raw, hraw, rfl⟩
      · rw [Bool.not_eq_true] at hm
        rw [hm] at hx
        simp at hx

/-- C3: for every dependency spec, an absent version is treated as the
range `*` (which every version satisfies); resolution returns the highest
known version satisfying the range; and when no known version satisfies the
range the resolution fails, which aborts the whole batch before planning,
rewriting or commit. -/
theorem spec_c3 :
    (∀ v, satisfiesRange "*" v = true) ∧
    (∀ (hist : BitId → List SemVer) (compId : BitId) (r : BitId),
      getDependencyWithExactVersion hist compId = Except.ok r →
      ∃ v, v ∈ hist (compId.changeVersion none) ∧
        satisfiesRange (jsOrStr compId.version "*") v = true ∧
        (∀ w ∈ hist (compId.changeVersion none),
          satisfiesRange (jsOrStr compId.version "*") w = true → w.leb v = true) ∧
        r = compId.changeVersion (some v.toString)) ∧
    (∀ (hist : BitId → List SemVer) (compId : BitId),
      (∀ v ∈ hist (compId.changeVersion none),
        satisfiesRange (jsOrStr compId.version "*") v = false) →
      ∃ msg, getDependencyWithExactVersion hist compId = Except.error msg) ∧
    (∀ (env : Env) (opts : UpdateDepsOptions) (pre post : List DepUpdateItemRaw)
        (bad : DepUpdateItemRaw) (c : ConsumerComponent) (e : UDError),
      (∀ raw ∈ pre, rawParses env raw = true) →
      env.store bad.componentId = some c →
      resolveDeps env bad.dependencies = Except.error e →
      updateDependenciesVersions env (pre ++ bad :: post) opts = Except.error e) := by
  refine ⟨fun v => rfl, ?_, ?_, ?_⟩
  · intro hist compId r h
    simp only [getDependencyWithExactVersion] at h
    cases hx : getExactVersionBySemverRange (hist (compId.changeVersion none))
        (jsOrStr compId.version "*") with
    | none =>
      rw [hx] at h
      exact Except.noConfusion h
    | some v =>
      rw [hx] at h
      cases h
      unfold getExactVersionBySemverRange at hx
      obtain ⟨hmem, hsat⟩ := maxSatisfying_mem_sat hx
      exact ⟨v, hmem, hsat, maxSatisfying_ge hx, rfl⟩
  · intro hist compId hall
    cases hx : maxSatisfying (jsOrStr compId.version "*") (hist (compId.changeVersion none)) with
    | some v =>
      obtain ⟨hmem, hsat⟩ := maxSatisfying_mem_sat hx
      rw [hall v hmem] at hsat
      exact absurd hsat (by simp)
    | none =>
      refine ⟨"unable to find a version that satisfies \x22" ++ jsOrStr compId.version "*" ++
        "\x22 of \x22" ++ compId.toString ++ "\x22", ?_⟩
      simp only [getDependencyWithExactVersion, getExactVersionBySemverRange, hx]
  · intro env opts pre post bad c e hpre hstore hres
    have hbad : parseDevUpdatesItems env (bad :: post) = Except.error e := by
      simp only [parseDevUpdatesItems, hstore, hres]
    exact pipeline_error_of_parse (parse_prepend_error hpre hbad)

/-! ### Extension-data merge lemmas -/

theorem lookupKey_setKey_self (k : String) (v : ExtFieldVal)
    (l : List (String × ExtFieldVal)) : lookupKey k (setKey k v l) = some v := by
  induction l with
  | nil => simp [setKey, lookupKey, List.find?]
  | cons kv rest ih =>
    by_cases hk : (kv.1 == k) = true
    · simp [setKey, hk, lookupKey, List.find?]
    · rw [Bool.not_eq_true] at hk
      simp only [setKey, hk, Bool.false_eq_true, if_false]
      simp only [lookupKey, List.find?, hk] at ih ⊢
      exact ih

theorem lookupKey_setKey_other (k k2 : String) (v : ExtFieldVal)
    (l : List (String × ExtFieldVal)) (h : (k2 == k) = false) :
    lookupKey k2 (setKey k v l) = lookupKey k2 l := by
  induction l with
  | nil =>
    have h2 : (k == k2) = false := by
      rw [beq_eq_false_iff_ne] at h ⊢
      exact fun hk => h hk.symm
    simp [setKey, lookupKey, List.find?, h2]
  | cons kv rest ih =>
    by_cases hk : (kv.1 == k) = true
    · have hkv : kv.1 = k := by rwa [beq_iff_eq] at hk
      have h2 : (kv.1 == k2) = false := by
        rw [beq_eq_false_iff_ne] at h ⊢
        rw [hkv]
        exact fun hk2 => h hk2.symm
      simp [setKey, hk, lookupKey, List.find?, h2]
    · rw [Bool.not_eq_true] at hk
      simp only [setKey, hk, Bool.false_eq_true, if_false]
      by_cases h2 : (kv.1 == k2) = true
      · simp [lookupKey, List.find?, h2]
      · rw [Bool.not_eq_true] at h2
        simp only [lookupKey, List.find?, h2] at ih ⊢
        exact ih

theorem objectAssign_single (target : List (String × ExtFieldVal)) (k : String)
    (v : ExtFieldVal) : objectAssign target [(k, v)] = setKey k v target := by
  simp [objectAssign]

theorem updateFirstWhere_split (p : ExtensionDataEntry → Bool)
    (f : ExtensionDataEntry → ExtensionDataEntry)
    (pre post : List ExtensionDataEntry) (e : ExtensionDataEntry)
    (hpre : ∀ x ∈ pre, p x = false) (he : p e = true) :
    updateFirstWhere p f (pre ++ e :: post) = pre ++ f e :: post := by
  induction pre with
  | nil => simp [updateFirstWhere, he]
  | cons x rest ih =>
    have hx := hpre x (List.mem_cons_self x rest)
    have hrest : ∀ y ∈ rest, p y = false := fun y hy => hpre y (List.mem_cons_of_mem x hy)
    simp [updateFirstWhere, hx, ih hrest]

/-- C9: the metadata-update step merges the freshly extracted dependency
records into the existing dependency-resolver extension entry at the top
level only — the `dependencies` key is replaced, every other top-level key
of that entry's data is unchanged, every other extension entry is unchanged
and all non-extension fields of the component are unchanged; when no such
entry exists, a new one is appended instead. -/
theorem spec_c9 (extracted : List (String × String)) (c : ConsumerComponent) :
    ((updateDependencyResolver extracted c).scope = c.scope ∧
     (updateDependencyResolver extracted c).name = c.name ∧
     (updateDependencyResolver extracted c).version = c.version ∧
     (updateDependencyResolver extracted c).dependencies = c.dependencies ∧
     (updateDependencyResolver extracted c).devDependencies = c.devDependencies ∧
     (updateDependencyResolver extracted c).buildStatus = c.buildStatus ∧
     (updateDependencyResolver extracted c).log = c.log) ∧
    (∀ pre e post,
      c.extensions = pre ++ e :: post →
      (∀ x ∈ pre, (x.stringId == depResolverId) = false) →
      (e.stringId == depResolverId) = true →
      (updateDependencyResolver extracted c).extensions =
        pre ++ { e with data := (objectAssign e.data
          [("dependencies", ExtFieldVal.deps extracted)]) } :: post ∧
      lookupKey "dependencies" (objectAssign e.data
          [("dependencies", ExtFieldVal.deps extracted)]) =
        some (ExtFieldVal.deps extracted) ∧
      (∀ k2, (k2 == "dependencies") = false →
        lookupKey k2 (objectAssign e.data [("dependencies", ExtFieldVal.deps extracted)]) =
          lookupKey k2 e.data)) ∧
    ((∀ x ∈ c.extensions, (x.stringId == depResolverId) = false) →
      (updateDependencyResolver extracted c).extensions =
        c.extensions ++
          [{ extensionId := none
             name := some depResolverId
             data := [("dependencies", ExtFieldVal.deps extracted)] }]) := by
  have hframe := updRes_frame extracted c
  refine ⟨⟨hframe.1, hframe.2.1, hframe.2.2.1, hframe.2.2.2.1, hframe.2.2.2.2.1,
    hframe.2.2.2.2.2.1, hframe.2.2.2.2.2.2.1⟩, ?_, ?_⟩
  · intro pre e post hsplit hpre he
    refine ⟨?_, ?_, ?_⟩
    · have hany2 : ((pre ++ e :: post).any fun x => x.stringId == depResolverId) = true := by
        rw [List.any_eq_true]
        exact ⟨e, List.mem_append_right pre (List.mem_cons_self e post), he⟩
      simp only [updateDependencyResolver, hsplit, hany2, if_true]
      exact updateFirstWhere_split _ _ pre post e hpre he
    · rw [objectAssign_single]
      exact lookupKey_setKey_self _ _ _
    · intro k2 hk2
      rw [objectAssign_single]
      exact lookupKey_setKey_other _ _ _ _ hk2
  · intro hall
    have hany : c.extensions.any (fun x => x.stringId == depResolverId) = false := by
      rw [List.any_eq_false]
      intro x hx
      rw [hall x hx]
      exact Bool.false_ne_true
    simp only [updateDependencyResolver, hany, Bool.false_eq_true, if_false]

/-- C5: a successful per-component rewrite changes only dependency edges
and extension references whose target matches the lookup set
ignoring versions: edge counts are preserved (nothing added or removed),
every non-matching edge keeps its version and package name, a matched edge
keeps its identity apart from the version, and extension entries with no
matching reference are untouched. -/
theorem spec_c5 (c : ConsumerComponent) (ds cur : List BitId)
    (dl : List (String × String))
    (h : (updateDependenciesVersionsOfComponent c ds cur dl).2 = none) :
    ((updateDependenciesVersionsOfComponent c ds cur dl).1.dependencies.length =
      c.dependencies.length) ∧
    ((updateDependenciesVersionsOfComponent c ds cur dl).1.devDependencies.length =
      c.devDependencies.length) ∧
    ((updateDependenciesVersionsOfComponent c ds cur dl).1.extensions.length =
      c.extensions.length) ∧
    (∀ (k : Nat) (dep : Dependency), c.dependencies[k]? = some dep →
      searchWithoutVersion (cur ++ ds) dep.id = none →
      (updateDependenciesVersionsOfComponent c ds cur dl).1.dependencies[k]? = some dep) ∧
    (∀ (k : Nat) (dep : Dependency), c.devDependencies[k]? = some dep →
      searchWithoutVersion (cur ++ ds) dep.id = none →
      (updateDependenciesVersionsOfComponent c ds cur dl).1.devDependencies[k]? = some dep) ∧
    (∀ (k : Nat) (dep : Dependency) (ub : BitId), c.dependencies[k]? = some dep →
      searchWithoutVersion (cur ++ ds) dep.id = some ub →
      (updateDependenciesVersionsOfComponent c ds cur dl).1.dependencies[k]? =
        some { id := ub, packageName := findPackageName dl dep.id.toString } ∧
      ub.isEqualWithoutVersion dep.id = true) ∧
    (∀ (k : Nat) (dep : Dependency) (ub : BitId), c.devDependencies[k]? = some dep →
      searchWithoutVersion (cur ++ ds) dep.id = some ub →
      (updateDependenciesVersionsOfComponent c ds cur dl).1.devDependencies[k]? =
        some { id := ub, packageName := findPackageName dl dep.id.toString } ∧
      ub.isEqualWithoutVersion dep.id = true) ∧
    (∀ (k : Nat) (ext : ExtensionDataEntry), c.extensions[k]? = some ext →
      (ext.extensionId = none ∨
        (∃ ei, ext.extensionId = some ei ∧ searchWithoutVersion (cur ++ ds) ei = none)) →
      (updateDependenciesVersionsOfComponent c ds cur dl).1.extensions[k]? = some ext) := by
  rw [updComp_ok h]
  refine ⟨by simp, by simp, by simp, ?_, ?_, ?_, ?_, ?_⟩
  · intro k dep hk hs
    simp only [List.getElem?_map, hk, Option.map_some]
    simp [rewriteDep, hs]
  · intro k dep hk hs
    simp only [List.getElem?_map, hk, Option.map_some]
    simp [rewriteDep, hs]
  · intro k dep ub hk hs
    have hs2 : (cur ++ ds).find? (fun i => i.isEqualWithoutVersion dep.id) = some ub := hs
    refine ⟨?_, ?_⟩
    · simp only [List.getElem?_map, hk, Option.map_some]
      simp [rewriteDep, hs]
    · have h3 := List.find?_some hs2
      simpa using h3
  · intro k dep ub hk hs
    have hs2 : (cur ++ ds).find? (fun i => i.isEqualWithoutVersion dep.id) = some ub := hs
    refine ⟨?_, ?_⟩
    · simp only [List.getElem?_map, hk, Option.map_some]
      simp [rewriteDep, hs]
    · have h3 := List.find?_some hs2
      simpa using h3
  · intro k ext hk hcase
    simp only [List.getElem?_map, hk, Option.map_some]
    rcases hcase with hnone | ⟨ei, hei, hs⟩
    · simp [rewriteExtension, hnone]
    · simp [rewriteExtension, hei, hs]

theorem isSome_map_find? {α β : Type _} (l : List α) (p : α → Bool) (f : α → β) :
    ((l.find? p).map f).isSome = l.any p := by
  rw [← find?_isSome_eq_any]
  cases l.find? p <;> rfl

theorem map_find?_eq_none_iff {α β : Type _} (l : List α) (p : α → Bool) (f : α → β) :
    ((l.find? p).map f = none) ↔ l.any p = false := by
  rw [← find?_isSome_eq_any]
  cases l.find? p <;> simp

/-- C1: on every successful run, the result's `error` field is the
formatted message of the first build pipeline reporting errors — non-null
exactly when some pipeline reported errors — and the batch is still
committed: the store flush runs, every component of the batch is persisted,
and when errors were reported every persisted component carries
`buildStatus = Failed`. -/
theorem spec_c1 (env : Env) (raws : List DepUpdateItemRaw) (opts : UpdateDepsOptions)
    (out : PipelineOutcome)
    (h : updateDependenciesVersions env raws opts = Except.ok out) :
    (out.result.error =
      (out.pipeResults.find? (fun pipe => pipe.hasErrors)).map
        (fun pipe => pipe.errorMessageFormatted)) ∧
    (out.result.error.isSome = out.pipeResults.any (fun pipe => pipe.hasErrors)) ∧
    out.persistedFlush = true ∧
    out.persisted.length = raws.length ∧
    (out.pipeResults.any (fun pipe => pipe.hasErrors) = true →
      ∀ c ∈ out.persisted, c.buildStatus = some BuildStatus.failed) ∧
    (out.result.error = none ↔
      out.pipeResults.any (fun pipe => pipe.hasErrors) = false) := by
  obtain ⟨parsed, hp, hr, hout⟩ := pipeline_ok_inv h
  subst hout
  refine ⟨after_error env opts (importAllMissing raws opts) _, ?_, after_flush env opts
    (importAllMissing raws opts) _, ?_, ?_, ?_⟩
  · rw [after_error env opts (importAllMissing raws opts) _]
    exact isSome_map_find? _ _ _
  · rw [after_persisted_eq, List.length_map, after_length]
    rw [updateAllDeps_ok_length hr, updateFutureVersion_length]
    exact parse_ok_length hp
  · intro hany c hc
    have hst := after_status env opts (importAllMissing raws opts) _ c hc
    rw [hany] at hst
    simpa using hst
  · rw [after_error env opts (importAllMissing raws opts) _]
    exact map_find?_eq_none_iff _ _ _

/-- C10: a single build status, computed once for the whole batch, is
stamped on every persisted component: `Failed` on all of them as soon as
any pipeline reported errors — even components whose own build produced no
error — and `Succeed` on all of them otherwise; in particular all persisted
components carry the same status. -/
theorem spec_c10 (env : Env) (raws : List DepUpdateItemRaw) (opts : UpdateDepsOptions)
    (out : PipelineOutcome)
    (h : updateDependenciesVersions env raws opts = Except.ok out) :
    (∀ c ∈ out.persisted, c.buildStatus =
      some (if out.pipeResults.any (fun pipe => pipe.hasErrors) then BuildStatus.failed
        else BuildStatus.succeed)) ∧
    (∀ c1 ∈ out.persisted, ∀ c2 ∈ out.persisted, c1.buildStatus = c2.buildStatus) ∧
    (out.pipeResults.any (fun pipe => pipe.hasErrors) = false →
      ∀ c ∈ out.persisted, c.buildStatus = some BuildStatus.succeed) := by
  obtain ⟨parsed, hp, hr, hout⟩ := pipeline_ok_inv h
  subst hout
  have hst := after_status env opts (importAllMissing raws opts)
    (updateAllDeps env (updateFutureVersion env opts parsed)).1
  refine ⟨hst, ?_, ?_⟩
  · intro c1 hc1 c2 hc2
    rw [hst c1 hc1, hst c2 hc2]
  · intro hany c hc
    have := hst c hc
    rw [hany] at this
    simpa using this

/-- C6: version planning assigns, before any dependency rewriting, a tag
version resolved from the item's `versionToTag` with `patch` as the default
release type, or a content-addressed snapshot token when `tag` is not set;
the rewrite step runs on the planned batch and the planned versions survive
unchanged into the returned items. -/
theorem spec_c6 (env : Env) (raws : List DepUpdateItemRaw) (opts : UpdateDepsOptions)
    (out : PipelineOutcome) (parsed : List DepUpdateItem)
    (h : updateDependenciesVersions env raws opts = Except.ok out)
    (hp : parseDevUpdatesItems env raws = Except.ok parsed) :
    (out.result.depsUpdateItems.map (fun d => d.component.version) =
      parsed.map (fun it => some (plannedVersion env opts it))) ∧
    (∀ it : DepUpdateItem, opts.tag = true → it.versionToTag = none →
      plannedVersion env opts it =
        getVersionToAdd (env.history (it.component.id.changeVersion none))
          (ReleaseSpec.release "patch")) ∧
    (∀ it : DepUpdateItem, opts.tag = true →
      plannedVersion env opts it =
        getVersionToAdd (env.history (it.component.id.changeVersion none))
          (getValidVersionOrReleaseType (jsOrStr it.versionToTag "patch"))) ∧
    (∀ it : DepUpdateItem, opts.tag = false →
      plannedVersion env opts it = env.snapToAdd it.component) ∧
    ((updateAllDeps env (updateFutureVersion env opts parsed)).2 = none ∧
      out = pipelineAfterRewrite env opts (importAllMissing raws opts)
        (updateAllDeps env (updateFutureVersion env opts parsed)).1) := by
  obtain ⟨parsed2, hp2, hr, hout⟩ := pipeline_ok_inv h
  rw [hp] at hp2
  cases hp2
  refine ⟨?_, ?_, ?_, ?_, hr, hout⟩
  · rw [hout, after_versions, updateAllDeps_ok_versions hr]
    exact updateFutureVersion_versions env opts parsed
  · intro it htag hnone
    simp only [plannedVersion, htag, if_true, hnone, jsOrStr]
    rw [show getValidVersionOrReleaseType "patch" = ReleaseSpec.release "patch" from rfl]
  · intro it htag
    simp only [plannedVersion, htag, if_true]
  · intro it htag
    simp only [plannedVersion, htag, Bool.false_eq_true, if_false]

/-- C8: when an update item's component identifier is absent from the store
(and the items before it parse cleanly, so the loop reaches it), the
parse/resolve step fails with `ComponentNotFound` and the whole batch
aborts with that error — before any version planning, rewriting or
commit. -/
theorem spec_c8 (env : Env) (pre post : List DepUpdateItemRaw) (bad : DepUpdateItemRaw)
    (opts : UpdateDepsOptions)
    (hpre : ∀ raw ∈ pre, rawParses env raw = true)
    (habsent : env.store bad.componentId = none) :
    updateDependenciesVersions env (pre ++ bad :: post) opts =
      Except.error (UDError.componentNotFound bad.componentId) := by
  have hbad : parseDevUpdatesItems env (bad :: post) =
      Except.error (UDError.componentNotFound bad.componentId) := by
    simp only [parseDevUpdatesItems, habsent]
  exact pipeline_error_of_parse (parse_prepend_error hpre hbad)

/-- C2: in a planned batch, a dependency edge of item `i` whose target
matches item `j` (the first batch member matching it, ignoring versions) is
rewritten to exactly item `j`'s id as planned — which carries the version
assigned to `j` by the version-planning step, not `j`'s pre-update stored
version. -/
theorem spec_c2 (env : Env) (opts : UpdateDepsOptions) (items0 : List DepUpdateItem)
    (planned : List DepUpdateItem)
    (hplanned : planned = updateFutureVersion env opts items0)
    (i j k : Nat)
    (hi : i < planned.length) (hj : j < planned.length) (hj0 : j < items0.length)
    (hk : k < (planned[i]).component.dependencies.length)
    (hmatch : ((planned[j]).component.id).isEqualWithoutVersion
      ((planned[i]).component.dependencies[k]).id = true)
    (hfirst : ∀ j2 (hj2 : j2 < planned.length), j2 < j →
      ((planned[j2]).component.id).isEqualWithoutVersion
        ((planned[i]).component.dependencies[k]).id = false)
    (hok : (updateAllDeps env planned).2 = none) :
    ((((updateAllDeps env planned).1[i]?).bind
        (fun it => it.component.dependencies[k]?)).map (fun d => d.id) =
      some ((planned[j]).component.id)) ∧
    ((planned[j]).component.version = some (plannedVersion env opts (items0[j]))) ∧
    (((planned[j]).component.id).version = some (plannedVersion env opts (items0[j]))) := by
  have hok2 : (updateAllDepsGo env (planned.map (fun d => d.component.id)) planned).2 = none := hok
  have hmap := go_ok_map hok2
  have hitem_ok := go_ok_each hok2 planned[i] (planned.getElem_mem hi)
  have hjcur : j < (planned.map (fun d => d.component.id)).length := by simpa using hj
  have hcurj : (planned.map (fun d => d.component.id))[j] = (planned[j]).component.id := by
    simp
  have hfind : (planned.map (fun d => d.component.id)).find?
      (fun x => x.isEqualWithoutVersion ((planned[i]).component.dependencies[k]).id) =
      some ((planned[j]).component.id) := by
    rw [← hcurj]
    apply find?_eq_getElem_of_first
    · rw [hcurj]
      exact hmatch
    · intro i2 h2 hij
      have h2p : i2 < planned.length := by simpa using h2
      have hcuri2 : (planned.map (fun d => d.component.id))[i2] =
          (planned[i2]).component.id := by simp
      rw [hcuri2]
      exact hfirst i2 h2p hij
  have hsearch : searchWithoutVersion
      ((planned.map (fun d => d.component.id)) ++ (planned[i]).dependencies)
      ((planned[i]).component.dependencies[k]).id = some ((planned[j]).component.id) :=
    find?_append_some hfind
  refine ⟨?_, ?_, ?_⟩
  · rw [show updateAllDeps env planned =
      updateAllDepsGo env (planned.map (fun d => d.component.id)) planned from rfl]
    rw [hmap]
    rw [List.getElem?_map, List.getElem?_eq_getElem hi]
    simp only [Option.map_some', Option.some_bind]
    rw [processItem_deps_ok hitem_ok]
    rw [List.getElem?_map, List.getElem?_eq_getElem hk]
    simp only [Option.map_some']
    simp [rewriteDep, hsearch]
  · have h4 := List.getElem_of_eq hplanned hj
    rw [h4]
    simp [updateFutureVersion]
  · have h4 := List.getElem_of_eq hplanned hj
    rw [h4]
    simp [updateFutureVersion, ConsumerComponent.id]

/-- C4 (amended): when a matched edge of some component has no derivable
package name, the rewrite loop fails with that component's error, the
failing component keeps only the mutations made before the throw, every
component after the failing one is untouched — but components before it
have already been rewritten — and the batch aborts with the rewrite error
before any commit. -/
theorem spec_c4 (env : Env) (pre post : List DepUpdateItem) (bad : DepUpdateItem)
    (e : String)
    (hpre : ∀ it ∈ pre, (updateDependenciesVersionsOfComponent it.component it.dependencies
      ((pre ++ bad :: post).map (fun d => d.component.id)) (env.getDeps it.component)).2 = none)
    (hbad : (updateDependenciesVersionsOfComponent bad.component bad.dependencies
      ((pre ++ bad :: post).map (fun d => d.component.id))
      (env.getDeps bad.component)).2 = some e) :
    (updateAllDeps env (pre ++ bad :: post)).2 = some e ∧
    (updateAllDeps env (pre ++ bad :: post)).1.drop (pre.length + 1) = post ∧
    (updateAllDeps env (pre ++ bad :: post)).1[pre.length]? =
      some { bad with component := (updateDependenciesVersionsOfComponent bad.component
        bad.dependencies ((pre ++ bad :: post).map (fun d => d.component.id))
        (env.getDeps bad.component)).1 } ∧
    (updateAllDeps env (pre ++ bad :: post)).1.take pre.length =
      pre.map (processItem env ((pre ++ bad :: post).map (fun d => d.component.id))) ∧
    (∀ (env2 : Env) (raws : List DepUpdateItemRaw) (opts : UpdateDepsOptions)
        (parsed : List DepUpdateItem) (msg : String),
      parseDevUpdatesItems env2 raws = Except.ok parsed →
      (updateAllDeps env2 (updateFutureVersion env2 opts parsed)).2 = some msg →
      updateDependenciesVersions env2 raws opts = Except.error (UDError.rewriteError msg)) := by
  have h5 := @go_fail env ((pre ++ bad :: post).map (fun d => d.component.id)) pre post bad e
    hpre hbad
  have hdef : updateAllDeps env (pre ++ bad :: post) =
      updateAllDepsGo env ((pre ++ bad :: post).map (fun d => d.component.id))
        (pre ++ bad :: post) := rfl
  have hlm : (pre.map (processItem env
      ((pre ++ bad :: post).map (fun d => d.component.id)))).length = pre.length := by simp
  rw [hdef, h5]
  refine ⟨rfl, ?_, ?_, ?_, ?_⟩
  · rw [← hlm, List.drop_append]
    simp
  · rw [List.getElem?_append_right (by rw [hlm])]
    rw [hlm]
    simp
  · rw [← hlm, List.take_left]
  · intro env2 raws opts parsed msg hparse hfail
    simp [updateDependenciesVersions, hparse, hfail]

def depOnX : Dependency := { id := ⟨"sc", "x", some "0.9.0"⟩, packageName := some "pkg-x" }

def depOnY : Dependency := { id := ⟨"sc", "y", some "0.5.0"⟩, packageName := some "pkg-y" }

def compC4a : ConsumerComponent :=
  { scope := "sc", name := "a", version := some "1.0.0"
    dependencies := [depOnX]
    devDependencies := []
    flattenedDependencies := []
    extensions := []
    buildStatus := none
    log := none }

def compC4b : ConsumerComponent :=
  { scope := "sc", name := "b", version := some "1.0.0"
    dependencies := [depOnY]
    devDependencies := []
    flattenedDependencies := []
    extensions := []
    buildStatus := none
    log := none }

def envC4 : Env :=
  { store := fun _ => none
    history := fun _ => []
    snapToAdd := fun _ => ""
    getDeps := fun c => if c.name == "a" then [("sc/x@0.9.0", "pkg-x")] else []
    extract := fun _ => []
    computeFlattened := fun _ => []
    tagListener := fun _ => { builderDataMap := [], pipeResults := [] }
    publishedPackages := fun _ => []
    now := "" }

def itemC4a : DepUpdateItem :=
  { component := compC4a, dependencies := [⟨"sc", "x", some "1.0.0"⟩], versionToTag := none }

def itemC4b : DepUpdateItem :=
  { component := compC4b, dependencies := [⟨"sc", "y", some "1.0.0"⟩], versionToTag := none }

/-- C4 counterexample: in the batch `[a, b]` the rewrite of `b` fails for a
missing package name, yet component `a` — another component of the batch —
has already been mutated by the rewrite step, so the rewrite failure does
not leave every other component of the batch unmutated. -/
theorem spec_c4_cex :
    ((updateAllDeps envC4 [itemC4a, itemC4b]).2 =
      some ("unable to find the package-name of \x22sc/y@0.5.0\x22 dependency inside the dependency-resolver data of \x22sc/b@1.0.0\x22")) ∧
    ((updateAllDeps envC4 [itemC4a, itemC4b]).1.map (fun it => it.component) ≠
      [compC4a, compC4b]) ∧
    (((updateAllDeps envC4 [itemC4a, itemC4b]).1[0]?).map
        (fun it => it.component.dependencies) ≠ some compC4a.dependencies) := by
  refine ⟨by decide, by decide, by decide⟩

/-! ### Concrete instances used by the witnesses -/

def emptyOutcome : PipelineOutcome :=
  { result := { depsUpdateItems := [], publishedPackages := [], error := none }
    pipeResults := []
    importedIds := []
    importUsedCache := false
    persisted := []
    persistedFlush := false
    exported := false }

def compWa : ConsumerComponent :=
  { scope := "sc", name := "a", version := some "0.0.1"
    dependencies := [{ id := ⟨"sc", "b", some "1.0.0"⟩, packageName := some "pkg-b" },
                     { id := ⟨"sc", "c", some "0.1.0"⟩, packageName := some "pkg-c" }]
    devDependencies := []
    flattenedDependencies := []
    extensions := []
    buildStatus := none
    log := none }

def compWb : ConsumerComponent :=
  { scope := "sc", name := "b", version := some "1.0.0"
    dependencies := []
    devDependencies := []
    flattenedDependencies := []
    extensions := []
    buildStatus := none
    log := none }

def envW : Env :=
  { store := fun id =>
      if id.name == "a" then some compWa else if id.name == "b" then some compWb else none
    history := fun id =>
      if id.name == "c" then [⟨0, 1, 0⟩] else [⟨1, 0, 0⟩, ⟨1, 2, 0⟩, ⟨2, 0, 0⟩]
    snapToAdd := fun c => "snap-" ++ c.name
    getDeps := fun c =>
      if c.name == "a" then [("sc/b@1.0.0", "pkg-b"), ("sc/c@0.1.0", "pkg-c")] else []
    extract := fun _ => [("x", "y")]
    computeFlattened := fun _ => []
    tagListener := fun _ =>
      { builderDataMap := []
        pipeResults := [{ hasErrorsFlag := true, errorMessageFormatted := "boom" }] }
    publishedPackages := fun _ => []
    now := "0" }

def rawW0 : DepUpdateItemRaw :=
  { componentId := ⟨"sc", "a", some "0.0.1"⟩, dependencies := [⟨"sc", "c", none⟩],
    versionToTag := none }

def rawW1 : DepUpdateItemRaw :=
  { componentId := ⟨"sc", "b", some "1.0.0"⟩, dependencies := [], versionToTag := none }

def rawsW : List DepUpdateItemRaw := [rawW0, rawW1]

def optsW : UpdateDepsOptions :=
  { tag := false, snap := true, multiple := false, message := none, username := none,
    email := none }

def outW : PipelineOutcome :=
  ((updateDependenciesVersions envW rawsW optsW).toOption).getD emptyOutcome

def parsedW : List DepUpdateItem :=
  ((parseDevUpdatesItems envW rawsW).toOption).getD []

def itemsW : List DepUpdateItem :=
  [{ component := compWa, dependencies := [], versionToTag := none },
   { component := compWb, dependencies := [], versionToTag := none }]

def extW9 : ExtensionDataEntry :=
  { extensionId := none
    name := some depResolverId
    data := [("policy", ExtFieldVal.str "p"), ("dependencies", ExtFieldVal.str "old")] }

def compW9 : ConsumerComponent :=
  { scope := "sc", name := "d", version := some "1.0.0"
    dependencies := []
    devDependencies := []
    flattenedDependencies := []
    extensions := [extW9]
    buildStatus := none
    log := none }

def rawW8 : DepUpdateItemRaw :=
  { componentId := ⟨"sc", "zzz", none⟩, dependencies := [], versionToTag := none }

/-! ### Witnesses -/

/-- Witness for C1 on a concrete failing-build batch. -/
theorem spec_c1_witness :
    outW.persistedFlush = true ∧ outW.persisted.length = 2 ∧
    outW.result.error.isSome = outW.pipeResults.any (fun pipe => pipe.hasErrors) := by
  have h := spec_c1 envW rawsW optsW outW rfl
  exact ⟨h.2.2.1, (h.2.2.2.1).trans (by decide), h.2.1⟩

/-- Witness for C2: in the concrete batch `[a, b]` the edge of `a` on `b`
is rewritten to `b`'s planned snapshot version. -/
theorem spec_c2_witness :
    ((((updateAllDeps envW (updateFutureVersion envW optsW itemsW)).1[0]?).bind
      (fun it => it.component.dependencies[0]?)).map (fun d => d.id)) =
      some ⟨"sc", "b", some "snap-b"⟩ := by
  have h := spec_c2 envW optsW itemsW (updateFutureVersion envW optsW itemsW) rfl 0 1 0
    (by decide) (by decide) (by decide) (by decide) (by decide) (by decide) (by rfl)
  rw [h.1]
  decide

/-- Witness for C3: resolution of a version-less spec against the history
`{0.1.0}` returns the highest satisfying version. -/
theorem spec_c3_witness :
    ∃ v, v ∈ envW.history (BitId.mk "sc" "c" none) ∧
      satisfiesRange (jsOrStr (BitId.mk "sc" "c" none).version "*") v = true ∧
      (∀ w ∈ envW.history (BitId.mk "sc" "c" none),
        satisfiesRange (jsOrStr (BitId.mk "sc" "c" none).version "*") w = true →
          w.leb v = true) ∧
      BitId.mk "sc" "c" (some "0.1.0") =
        (BitId.mk "sc" "c" none).changeVersion (some v.toString) :=
  spec_c3.2.1 envW.history ⟨"sc", "c", none⟩ ⟨"sc", "c", some "0.1.0"⟩ (by rfl)

/-- Witness for the amended C4 on the concrete two-item batch. -/
theorem spec_c4_witness :
    (updateAllDeps envC4 ([itemC4a] ++ itemC4b :: [])).2 =
      some ("unable to find the package-name of \x22sc/y@0.5.0\x22 dependency inside the dependency-resolver data of \x22sc/b@1.0.0\x22") ∧
    (updateAllDeps envC4 ([itemC4a] ++ itemC4b :: [])).1.drop 2 = [] := by
  have h := spec_c4 envC4 [itemC4a] [] itemC4b
    ("unable to find the package-name of \x22sc/y@0.5.0\x22 dependency inside the dependency-resolver data of \x22sc/b@1.0.0\x22")
    (by decide) (by decide)
  exact ⟨h.1, h.2.1⟩

/-- Witness for C5: a successful concrete rewrite preserves the edge
count. -/
theorem spec_c5_witness :
    (updateDependenciesVersionsOfComponent compWa [⟨"sc", "b", some "2.0.0"⟩] []
      [("sc/b@1.0.0", "pkg-b"), ("sc/c@0.1.0", "pkg-c")]).1.dependencies.length =
      compWa.dependencies.length :=
  (spec_c5 compWa [⟨"sc", "b", some "2.0.0"⟩] []
    [("sc/b@1.0.0", "pkg-b"), ("sc/c@0.1.0", "pkg-c")] (by rfl)).1

/-- Witness for C6 on the concrete snapshot-mode batch. -/
theorem spec_c6_witness :
    plannedVersion envW optsW { component := compWa, dependencies := [], versionToTag := none } =
      envW.snapToAdd compWa := by
  have h := spec_c6 envW rawsW optsW outW parsedW rfl rfl
  exact h.2.2.2.1 { component := compWa, dependencies := [], versionToTag := none } rfl

/-- Witness for C7 on the concrete batch: cache disabled and the spec-less
dependency imported at the `latest` token. -/
theorem spec_c7_witness :
    (importAllMissing rawsW optsW).2 = false ∧
    BitId.mk "sc" "c" (some LATEST) ∈ (importAllMissing rawsW optsW).1 := by
  have h := spec_c7 rawsW optsW
  exact ⟨h.1, h.2.1 rawW0 (by decide) ⟨"sc", "c", none⟩ (by decide)⟩

/-- Witness for C8: a store miss on the only batch item aborts with
`ComponentNotFound`. -/
theorem spec_c8_witness :
    updateDependenciesVersions envW ([] ++ rawW8 :: []) optsW =
      Except.error (UDError.componentNotFound ⟨"sc", "zzz", none⟩) :=
  spec_c8 envW [] [] rawW8 optsW (by decide) (by rfl)

/-- Witness for C9: merging into an existing dependency-resolver entry
replaces the `dependencies` key. -/
theorem spec_c9_witness :
    lookupKey "dependencies" (objectAssign extW9.data
      [("dependencies", ExtFieldVal.deps [("x", "y")])]) =
      some (ExtFieldVal.deps [("x", "y")]) :=
  ((spec_c9 [("x", "y")] compW9).2.1 [] extW9 [] rfl (by decide) (by decide)).2.1

/-- Witness for C10: with a failing pipeline, the first persisted component
carries the batch-wide `Failed` status. -/
theorem spec_c10_witness :
    outW.persisted[0]?.map (fun c => c.buildStatus) = some (some BuildStatus.failed) := by
  have hb : 0 < outW.persisted.length := by decide
  have hmem : outW.persisted[0] ∈ outW.persisted := outW.persisted.getElem_mem hb
  have h1 := (spec_c10 envW rawsW optsW outW rfl).1 outW.persisted[0] hmem
  rw [List.getElem?_eq_getElem hb]
  simp only [Option.map_some']
  rw [h1]
  decide
